import Mathlib

/-!
# A verification development for the tilepix TMX decoding core

This file gives a shallow embedding of the decoding pipeline of the
`tilepix` Go package (file `tmx.go`, plus the newer `Object` geometry file)
and proves the behavioural properties of its specification against it.

Modelling conventions:
* Go `uint32` values (GIDs, bytes) are `Nat`s; where Go masks or bounds
  matter they appear explicitly (`&&& 0x1FFFFFFF`, `< 2 ^ 32`).
* Go strings are `List Char`; `strings.Split` on a one-character separator
  is `splitOnChar`, `strings.Map` with a dropping cleaner is `List.filter`.
* Fallible Go functions returning `(T, error)` become `Except TmxError T`
  (or `T × Option TmxError` where the zero value returned alongside the
  error is itself the point, as in the `Object` geometry queries).
* Go pointers into `Map.Tilesets` are indices (`Option Nat`); `nil`
  pointers are `none`.  This preserves pointer identity comparisons.
* The Go standard library collaborators (`encoding/xml`, `encoding/base64`,
  `compress/zlib`, `compress/gzip`, `io`) are outside this repository.  The
  XML parse is the input of `read`; the combined base64-decode/inflate
  result for a layer's raw data is carried as the `Data.inflated` field,
  an oracle for `ioutil.ReadAll(comr)` in `Data.decodeBase64`.
-/

namespace Tilepix

/-- Decidable equality for `Except`, needed to evaluate decoders on
concrete inputs. -/
instance {ε α : Type} [DecidableEq ε] [DecidableEq α] : DecidableEq (Except ε α) := fun a b =>
  match a, b with
  | .ok x, .ok y =>
    if h : x = y then .isTrue (by rw [h]) else .isFalse (fun hc => h (by cases hc; rfl))
  | .error x, .error y =>
    if h : x = y then .isTrue (by rw [h]) else .isFalse (fun hc => h (by cases hc; rfl))
  | .ok _, .error _ => .isFalse (fun hc => by cases hc)
  | .error _, .ok _ => .isFalse (fun hc => by cases hc)

/-- The error values of the package (`tmx.go` lines 29-36), together with
the `strconv` errors that `decodeCSV` / `decodePoints` propagate verbatim
(they carry the offending token, as Go's `*strconv.NumError` does) and
`ErrInvalidObjectType` returned by the `Object` geometry queries. -/
inductive TmxError where
  | unknownEncoding
  | unknownCompression
  | invalidDecodedDataLen
  | invalidGID
  | invalidPointsField
  | infiniteMap
  | parseUintError (tok : String)
  | atoiError (tok : String)
  | invalidObjectType
deriving DecidableEq

/-- `gidHorizontalFlip = 0x80000000` from `tmx.go`. -/
def gidHorizontalFlip : Nat := 0x80000000

/-- `gidVerticalFlip = 0x40000000` from `tmx.go`. -/
def gidVerticalFlip : Nat := 0x40000000

/-- `gidDiagonalFlip = 0x20000000` from `tmx.go`. -/
def gidDiagonalFlip : Nat := 0x20000000

/-- `gidFlip = gidHorizontalFlip | gidVerticalFlip | gidDiagonalFlip`. -/
def gidFlip : Nat := gidHorizontalFlip ||| gidVerticalFlip ||| gidDiagonalFlip

/-- A tileset (`Tileset` in `tmx.go`).  Only `FirstGID` takes part in the
decoding pipeline; the atlas geometry, image and property fields feed the
out-of-scope rendering collaborator and are omitted. -/
structure Tileset where
  firstGID : Nat
deriving DecidableEq

/-- A decoded tile (`DecodedTile` in `tmx.go`).  The Go `Tileset *Tileset`
back-pointer into `Map.Tilesets` is modelled as the index of that tileset
in the map's list (`none` for the nil pointer). -/
structure DecodedTile where
  id : Nat
  tileset : Option Nat
  horizontalFlip : Bool
  verticalFlip : Bool
  diagonalFlip : Bool
  nil : Bool
deriving DecidableEq

/-- `NilTile = &DecodedTile{Nil: true}` — the shared sentinel for GID 0;
all other fields are Go zero values. -/
def NilTile : DecodedTile :=
  { id := 0, tileset := none, horizontalFlip := false, verticalFlip := false
    diagonalFlip := false, nil := true }

/-- `DecodedTile.IsNil`. -/
def DecodedTile.isNil (t : DecodedTile) : Bool := t.nil

/-- Go's fail-fast loop over a list: apply `f` to each element in order,
returning the first error, otherwise the list of results.  This is the
shape of every `for ... { if err != nil return nil, err }` loop in the
source (`decodeCSV`, `decodeLayers`, `decodePoints`). -/
def collectExcept {ε α β : Type} (f : α → Except ε β) : List α → Except ε (List β)
  | [] => .ok []
  | x :: xs =>
    match f x with
    | .error e => .error e
    | .ok y =>
      match collectExcept f xs with
      | .error e => .error e
      | .ok ys => .ok (y :: ys)

/-- `strings.Split` for a single-character separator: `splitOnChar c []`
is `[[]]`, matching Go's `Split("", sep) = [""]`. -/
def splitOnChar (sep : Char) : List Char → List (List Char)
  | [] => [[]]
  | c :: cs =>
    if c = sep then [] :: splitOnChar sep cs
    else
      match splitOnChar sep cs with
      | [] => [[c]]
      | t :: ts => (c :: t) :: ts

/-- `strconv.ParseUint(s, 10, 32)`: fails on an empty or non-digit string
(syntax error) and on values not representable in 32 bits (range error);
the error carries the offending token. -/
def parseUint32 (s : List Char) : Except TmxError Nat :=
  if s = [] then .error (.parseUintError (String.mk s))
  else if s.all Char.isDigit then
    let v := s.foldl (fun a c => a * 10 + (c.toNat - 48)) 0
    if v < 2 ^ 32 then .ok v else .error (.parseUintError (String.mk s))
  else .error (.parseUintError (String.mk s))

/-- The cleaner of `Data.decodeCSV`: keep ASCII digits and commas, drop
every other rune (`strings.Map` returning -1). -/
def csvClean (s : List Char) : List Char :=
  s.filter (fun c => c.isDigit || c = ',')

/-- `Data` (`tmx.go` lines 115-121).  `rawData` is the inner XML text.
`inflated` is the oracle for the external base64/zlib/gzip stack: the
byte sequence (or error) that `ioutil.ReadAll` over the decoder/inflater
chain yields for this layer's raw data and compression attribute. -/
structure Data where
  encoding : String
  compression : String
  rawData : List Char
  dataTiles : List Nat
  inflated : Except TmxError (List Nat)
deriving DecidableEq

/-- `Data.decodeBase64` (`tmx.go` lines 123-156): the three supported
compression attributes hand the raw data to the external stack (the
`inflated` oracle); anything else is `UnknownCompressionError`. -/
def Data.decodeBase64 (d : Data) : Except TmxError (List Nat) :=
  if d.compression = "gzip" then d.inflated
  else if d.compression = "zlib" then d.inflated
  else if d.compression = "" then d.inflated
  else .error .unknownCompression

/-- `Data.decodeCSV` (`tmx.go` lines 158-180): clean, split on commas,
parse every token as a 32-bit unsigned integer, failing on the first bad
token. -/
def Data.decodeCSV (d : Data) : Except TmxError (List Nat) :=
  collectExcept parseUint32 (splitOnChar ',' (csvClean d.rawData))

/-- `Layer` (`tmx.go` lines 210-226).  `tileset` is the index of the
layer's single tileset in the map's list (`none` for the Go nil pointer);
rendering-only fields (opacity, visibility, properties, batch, parent)
are omitted. -/
structure Layer where
  name : String
  data : Data
  decodedTiles : List DecodedTile
  tileset : Option Nat
  empty : Bool
deriving DecidableEq

/-- `Layer.decodeLayerXML` (`tmx.go` lines 309-321): the inline tile
records must number exactly `width*height`; their GIDs are returned in
document order. -/
def Layer.decodeLayerXML (l : Layer) (width height : Nat) : Except TmxError (List Nat) :=
  if l.data.dataTiles.length ≠ width * height then .error .invalidDecodedDataLen
  else .ok l.data.dataTiles

/-- `Layer.decodeLayerCSV` (`tmx.go` lines 323-336). -/
def Layer.decodeLayerCSV (l : Layer) (width height : Nat) : Except TmxError (List Nat) :=
  match l.data.decodeCSV with
  | .error e => .error e
  | .ok gids =>
    if gids.length ≠ width * height then .error .invalidDecodedDataLen
    else .ok gids

/-- One GID from four consecutive bytes, little-endian:
`GID(b[j]) + GID(b[j+1])<<8 + GID(b[j+2])<<16 + GID(b[j+3])<<24`. -/
def leGID (b : List Nat) (j : Nat) : Nat :=
  b.getD j 0 + b.getD (j + 1) 0 * 2 ^ 8 + b.getD (j + 2) 0 * 2 ^ 16 + b.getD (j + 3) 0 * 2 ^ 24

/-- `Layer.decodeLayerBase64` (`tmx.go` lines 338-366).  The source's
nested loop visits cells row-major; at the iteration writing index
`y*width+x` the running byte offset `j` is `4*(y*width+x)`, so the loop
is the map of `leGID dataBytes (4*k)` over `k < width*height`. -/
def Layer.decodeLayerBase64 (l : Layer) (width height : Nat) : Except TmxError (List Nat) :=
  match l.data.decodeBase64 with
  | .error e => .error e
  | .ok dataBytes =>
    if dataBytes.length ≠ width * height * 4 then .error .invalidDecodedDataLen
    else .ok ((List.range (width * height)).map fun k => leGID dataBytes (4 * k))

/-- `Layer.decode` (`tmx.go` lines 292-307): dispatch on the encoding
attribute; the empty attribute means inline XML tile records. -/
def Layer.decode (l : Layer) (width height : Nat) : Except TmxError (List Nat) :=
  if l.data.encoding = "csv" then l.decodeLayerCSV width height
  else if l.data.encoding = "base64" then l.decodeLayerBase64 width height
  else if l.data.encoding = "" then l.decodeLayerXML width height
  else .error .unknownEncoding

/-- `Map` (`tmx.go` lines 377-389); fields not taking part in decoding
(orientation, tile pixel sizes, properties, object groups) are omitted.
`infinite` is the integer `infinite` attribute (the flag is set when it
equals 1). -/
structure Map where
  width : Nat
  height : Nat
  infinite : Nat
  tilesets : List Tileset
  layers : List Layer
deriving DecidableEq

/-- The reverse scan of `Map.decodeGID`'s loop
`for i := len(m.Tilesets) - 1; i >= 0; i--`: the index (and tileset) of
the last list element whose `FirstGID ≤ gidBare`, checking later elements
first. -/
def findOwner : List Tileset → Nat → Option (Nat × Tileset)
  | [], _ => none
  | t :: rest, bare =>
    match findOwner rest bare with
    | some (i, u) => some (i + 1, u)
    | none => if t.firstGID ≤ bare then some (0, t) else none

/-- `Map.decodeGID` (`tmx.go` lines 403-425).  `gid &^ gidFlip` on a
32-bit value is `gid &&& 0x1FFFFFFF`. -/
def Map.decodeGID (m : Map) (gid : Nat) : Except TmxError DecodedTile :=
  if gid = 0 then .ok NilTile
  else
    let gidBare := gid &&& 0x1FFFFFFF
    match findOwner m.tilesets gidBare with
    | some (i, u) =>
      .ok { id := gidBare - u.firstGID
            tileset := some i
            horizontalFlip := gid &&& gidHorizontalFlip != 0
            verticalFlip := gid &&& gidVerticalFlip != 0
            diagonalFlip := gid &&& gidDiagonalFlip != 0
            nil := false }
    | none => .error .invalidGID

/-- `Map.decodeLayers` (`tmx.go` lines 427-447): decode each layer's
payload, resolve every GID, fail fast; the Go in-place mutation of
`l.DecodedTiles` becomes an updated layer list. -/
def Map.decodeLayers (m : Map) : Except TmxError Map :=
  match collectExcept (fun l =>
    match l.decode m.width m.height with
    | .error e => .error e
    | .ok gids =>
      match collectExcept m.decodeGID gids with
      | .error e => .error e
      | .ok tiles => .ok { l with decodedTiles := tiles }) m.layers with
  | .error e => .error e
  | .ok layers => .ok { m with layers := layers }

/-- The accumulator loop of `getTileset` (`tmx.go` lines 638-654); the
accumulator is the `tileset` local variable (a tileset index, `none` for
the Go nil pointer). -/
def getTilesetAux : List DecodedTile → Option Nat → Option Nat × Bool × Bool
  | [], none => (none, true, false)
  | [], some t => (some t, false, false)
  | tile :: rest, acc =>
    if tile.nil then getTilesetAux rest acc
    else
      match acc with
      | none => getTilesetAux rest tile.tileset
      | some t =>
        if tile.tileset = some t then getTilesetAux rest (some t)
        else (some t, false, true)

/-- `getTileset(l *Layer) (tileset, isEmpty, usesMultipleTilesets)`. -/
def getTileset (l : Layer) : Option Nat × Bool × Bool :=
  getTilesetAux l.decodedTiles none

/-- The body of `Read`'s per-layer metadata loop (`tmx.go` lines 77-87):
when a single tileset (or none) is in use, set `Empty` and `Tileset`;
when several are, leave the layer untouched (`continue`). -/
def applyTilesetMeta (l : Layer) : Layer :=
  let r := getTileset l
  if r.2.2 then l
  else { l with empty := r.2.1, tileset := r.1 }

/-- `Read` (`tmx.go` lines 55-90) after the external XML parse: reject
infinite maps, decode all layers, then derive per-layer tileset metadata. -/
def read (m : Map) : Except TmxError Map :=
  if m.infinite = 1 then .error .infiniteMap
  else
    match m.decodeLayers with
    | .error e => .error e
    | .ok m2 => .ok { m2 with layers := m2.layers.map applyTilesetMeta }

/-- `Point` (`tmx.go` lines 498-501); Go `int` coordinates are `Int`. -/
structure Point where
  x : Int
  y : Int
deriving DecidableEq

/-- `strconv.Atoi`: an optional sign followed by at least one digit, all
digits, value within the 64-bit signed range; the error carries the
offending token. -/
def atoi (s0 : List Char) : Except TmxError Int :=
  let p : Bool × List Char :=
    match s0 with
    | '-' :: rest => (true, rest)
    | '+' :: rest => (false, rest)
    | _ => (false, s0)
  if p.2 = [] then .error (.atoiError (String.mk s0))
  else if p.2.all Char.isDigit then
    let v : Nat := p.2.foldl (fun a c => a * 10 + (c.toNat - 48)) 0
    if p.1 then
      if v ≤ 2 ^ 63 then .ok (-(v : Int)) else .error (.atoiError (String.mk s0))
    else
      if v < 2 ^ 63 then .ok (v : Int) else .error (.atoiError (String.mk s0))
  else .error (.atoiError (String.mk s0))

/-- The body of `decodePoints`' loop (`tmx.go` lines 512-530): split the
token on commas, require exactly two fields, `Atoi` each; a wrong field
count is `InvalidPointsFieldError`, a failed `Atoi` propagates its own
error. -/
def decodePoint (tok : List Char) : Except TmxError Point :=
  match splitOnChar ',' tok with
  | [cx, cy] =>
    match atoi cx with
    | .error e => .error e
    | .ok xv =>
      match atoi cy with
      | .error e => .error e
      | .ok yv => .ok { x := xv, y := yv }
  | _ => .error .invalidPointsField

/-- `decodePoints` (`tmx.go` lines 508-532): split on single spaces and
decode each token in order, failing fast. -/
def decodePoints (s : List Char) : Except TmxError (List Point) :=
  collectExcept decodePoint (splitOnChar ' ' s)

/-- The little-endian 4-bytes-per-GID encoding of a flat GID sequence:
the byte layout that `decodeLayerBase64` reassembles.  This is the
spec-side description of a base64(no compression) payload "carrying the
same logical tile IDs" as a given GID sequence. -/
def leEncode (gids : List Nat) : List Nat :=
  gids.flatMap fun g => [g % 256, g / 2 ^ 8 % 256, g / 2 ^ 16 % 256, g / 2 ^ 24 % 256]

/-! ## Objects and shape geometry queries

The `Object` model follows the package's object file (the one defining
`hydrateType` and the `Get*` shape queries).  `pixel` geometry (`Vec`,
`Circle`, `Rect`) uses exact rationals in place of `float64`; the claims
proved about these queries concern only their error behaviour, not
floating-point rounding. -/

/-- `Polygon` (`tmx.go`): the raw `points` attribute string. -/
structure Polygon where
  points : List Char
deriving DecidableEq

/-- `PolyLine` (`tmx.go`): the raw `points` attribute string. -/
structure PolyLine where
  points : List Char
deriving DecidableEq

/-- `Polygon.Decode`. -/
def Polygon.decode (p : Polygon) : Except TmxError (List Point) :=
  decodePoints p.points

/-- `PolyLine.Decode`. -/
def PolyLine.decode (p : PolyLine) : Except TmxError (List Point) :=
  decodePoints p.points

/-- `pixel.Vec`. -/
structure Vec where
  x : ℚ
  y : ℚ
deriving DecidableEq

/-- `pixel.Circle` (centre and radius). -/
structure Circle where
  center : Vec
  radius : ℚ
deriving DecidableEq

/-- `pixel.Rect` (min and max corners); `pixel.R(a, b, c, d)` builds it
without normalisation. -/
structure Rect where
  min : Vec
  max : Vec
deriving DecidableEq

/-- The `ObjectType` constants of the object file. -/
inductive ObjectType where
  | polygonObj
  | polylineObj
  | ellipseObj
  | pointObj
  | rectangleObj
deriving DecidableEq

/-- `Object` from the object file: position and size, the optional
`polygon`/`polyline` sub-elements, and the `ellipse`/`point` presence
markers (`*struct{}` pointers in Go, here `Bool` for present/absent).
Name, type string, GID, visibility, properties and the parent-map pointer
play no part in the shape queries and are omitted. -/
structure Object where
  x : ℚ
  y : ℚ
  width : ℚ
  height : ℚ
  polygon : Option Polygon
  polyLine : Option PolyLine
  ellipse : Bool
  point : Bool
deriving DecidableEq

/-- `Object.hydrateType`: the structural shape determination — first
present sub-element wins, default is rectangle. -/
def Object.hydrateType (o : Object) : ObjectType :=
  if o.polygon.isSome then .polygonObj
  else if o.polyLine.isSome then .polylineObj
  else if o.ellipse then .ellipseObj
  else if o.point then .pointObj
  else .rectangleObj

/-- `Object.GetType` returns the `objectType` field, which `hydrateType`
set once at load time. -/
def Object.getType (o : Object) : ObjectType :=
  o.hydrateType

/-- `Object.GetEllipse`: Go returns the pair
`(pixel.C(pixel.ZV, 0), ErrInvalidObjectType)` on a kind mismatch, and
the circle about the ellipse's centre with averaged radius otherwise. -/
def Object.getEllipse (o : Object) : Circle × Option TmxError :=
  if o.getType ≠ .ellipseObj then (⟨⟨0, 0⟩, 0⟩, some .invalidObjectType)
  else (⟨⟨o.x + o.width / 2, o.y + o.height / 2⟩, (o.width + o.height) / 4⟩, none)

/-- `Object.GetPoint`: `(pixel.ZV, ErrInvalidObjectType)` on a kind
mismatch, the object's position otherwise. -/
def Object.getPoint (o : Object) : Vec × Option TmxError :=
  if o.getType ≠ .pointObj then (⟨0, 0⟩, some .invalidObjectType)
  else (⟨o.x, o.y⟩, none)

/-- `Object.GetRect`: `(pixel.R(0, 0, 0, 0), ErrInvalidObjectType)` on a
kind mismatch, the object's bounding rectangle otherwise. -/
def Object.getRect (o : Object) : Rect × Option TmxError :=
  if o.getType ≠ .rectangleObj then (⟨⟨0, 0⟩, ⟨0, 0⟩⟩, some .invalidObjectType)
  else (⟨⟨o.x, o.y⟩, ⟨o.x + o.width, o.y + o.height⟩⟩, none)

/-! ## Concrete fixtures

Small concrete inputs used to witness the behavioural theorems on
evaluable data. -/

/-- A layer with three inline XML tile records (for a 2x2 grid they are
one short). -/
def fixtureXmlLayer : Layer :=
  { name := "xml"
    data := { encoding := "", compression := "", rawData := [], dataTiles := [1, 2, 3]
              inflated := .error .unknownCompression }
    decodedTiles := [], tileset := none, empty := false }

/-- A map with two tilesets, FirstGIDs 1 and 5. -/
def fixtureMapTwoTilesets : Map :=
  { width := 0, height := 0, infinite := 0, tilesets := [⟨1⟩, ⟨5⟩], layers := [] }

/-- A map with one tileset, FirstGID 1. -/
def fixtureMapOneTileset : Map :=
  { width := 0, height := 0, infinite := 0, tilesets := [⟨1⟩], layers := [] }

/-- A map with one tileset whose FirstGID is 3 (so bare GIDs 1 and 2
match no tileset). -/
def fixtureMapHighTileset : Map :=
  { width := 0, height := 0, infinite := 0, tilesets := [⟨3⟩], layers := [] }

/-- A base64 layer whose external decode yields the bytes of GIDs 1 and 2
(2x1 grid), little-endian. -/
def fixtureBase64Layer : Layer :=
  { name := "b64"
    data := { encoding := "base64", compression := "", rawData := []
              dataTiles := [], inflated := .ok [1, 0, 0, 0, 2, 0, 0, 0] }
    decodedTiles := [], tileset := none, empty := false }

/-- An infinite map (infinite attribute 1). -/
def fixtureInfiniteMap : Map :=
  { width := 1, height := 1, infinite := 1, tilesets := []
    layers := [fixtureXmlLayer] }

/-- A CSV layer carrying the GIDs 1, 2, 0, 3 of a 2x2 grid. -/
def fixtureCsvLayer : Layer :=
  { name := "csv"
    data := { encoding := "csv", compression := "", rawData := "1,2,0,3".toList
              dataTiles := [], inflated := .error .unknownCompression }
    decodedTiles := [], tileset := none, empty := false }

/-- The base64 companion of `fixtureCsvLayer`: same logical tile IDs,
little-endian bytes, no compression. -/
def fixtureCsvLayerB64 : Layer :=
  { name := "b64twin"
    data := { encoding := "base64", compression := "", rawData := []
              dataTiles := [], inflated := .ok (leEncode [1, 2, 0, 3]) }
    decodedTiles := [], tileset := none, empty := false }

/-- A 2x1 map with one tileset and one CSV layer with GIDs 1 and 2. -/
def fixtureReadMap : Map :=
  { width := 2, height := 1, infinite := 0, tilesets := [⟨1⟩]
    layers := [{ name := "ground"
                 data := { encoding := "csv", compression := "", rawData := "1,2".toList
                           dataTiles := [], inflated := .error .unknownCompression }
                 decodedTiles := [], tileset := none, empty := false }] }

/-- The layer of `fixtureReadMap` after a successful `read`: both tiles
resolved into tileset 0, single-tileset metadata set. -/
def fixtureReadLayerOut : Layer :=
  { name := "ground"
    data := { encoding := "csv", compression := "", rawData := "1,2".toList
              dataTiles := [], inflated := .error .unknownCompression }
    decodedTiles := [⟨0, some 0, false, false, false, false⟩,
                     ⟨1, some 0, false, false, false, false⟩]
    tileset := some 0, empty := false }

/-- `fixtureReadMap` after a successful `read`. -/
def fixtureReadMapOut : Map :=
  { width := 2, height := 1, infinite := 0, tilesets := [⟨1⟩]
    layers := [fixtureReadLayerOut] }

/-- An ellipse-shaped object. -/
def fixtureEllipseObject : Object :=
  { x := 1, y := 2, width := 4, height := 6, polygon := none, polyLine := none
    ellipse := true, point := false }

/-! ## Supporting lemmas -/

theorem collectExcept_ok_length {ε α β : Type} (f : α → Except ε β) :
    ∀ (xs : List α) (ys : List β), collectExcept f xs = .ok ys → ys.length = xs.length := by
  intro xs
  induction xs with
  | nil => intro ys h; simp only [collectExcept] at h; cases h; rfl
  | cons x xs ih =>
    intro ys h
    cases hf : f x with
    | error e => simp only [collectExcept, hf] at h; exact Except.noConfusion h
    | ok y =>
      cases hc : collectExcept f xs with
      | error e => simp only [collectExcept, hf, hc] at h; exact Except.noConfusion h
      | ok ys0 =>
        simp only [collectExcept, hf, hc] at h
        cases h
        simp [ih ys0 hc]

theorem collectExcept_ok_mem {ε α β : Type} (f : α → Except ε β) :
    ∀ (xs : List α) (ys : List β), collectExcept f xs = .ok ys →
      ∀ y ∈ ys, ∃ x ∈ xs, f x = .ok y := by
  intro xs
  induction xs with
  | nil =>
    intro ys h y hy
    simp only [collectExcept] at h
    cases h
    cases hy
  | cons x xs ih =>
    intro ys h y hy
    cases hf : f x with
    | error e => simp only [collectExcept, hf] at h; exact Except.noConfusion h
    | ok y0 =>
      cases hc : collectExcept f xs with
      | error e => simp only [collectExcept, hf, hc] at h; exact Except.noConfusion h
      | ok ys0 =>
        simp only [collectExcept, hf, hc] at h
        cases h
        rcases List.mem_cons.mp hy with hy | hy
        · exact ⟨x, List.mem_cons_self x xs, hy ▸ hf⟩
        · rcases ih ys0 hc y hy with ⟨x1, hx1, hfx1⟩
          exact ⟨x1, List.mem_cons_of_mem x hx1, hfx1⟩

theorem collectExcept_error_of_mem {ε α β : Type} (f : α → Except ε β) :
    ∀ (xs : List α) (x : α), x ∈ xs → (∃ e, f x = .error e) →
      ∃ e2, collectExcept f xs = .error e2 := by
  intro xs
  induction xs with
  | nil => intro x hx; cases hx
  | cons x0 xs ih =>
    intro x hx ⟨e, he⟩
    cases hf : f x0 with
    | error e0 => exact ⟨e0, by simp only [collectExcept, hf]⟩
    | ok y0 =>
      rcases List.mem_cons.mp hx with hx | hx
      · rw [← hx, he] at hf; exact Except.noConfusion hf
      · rcases ih x hx ⟨e, he⟩ with ⟨e2, hc⟩
        exact ⟨e2, by simp only [collectExcept, hf, hc]⟩

theorem collectExcept_ok_getD {ε α β : Type} (f : α → Except ε β) (dx : α) (dy : β) :
    ∀ (xs : List α) (ys : List β), collectExcept f xs = .ok ys →
      ∀ i, i < xs.length → f (xs.getD i dx) = .ok (ys.getD i dy) := by
  intro xs
  induction xs with
  | nil => intro ys h i hi; cases hi
  | cons x xs ih =>
    intro ys h i hi
    cases hf : f x with
    | error e => simp only [collectExcept, hf] at h; exact Except.noConfusion h
    | ok y =>
      cases hc : collectExcept f xs with
      | error e => simp only [collectExcept, hf, hc] at h; exact Except.noConfusion h
      | ok ys0 =>
        simp only [collectExcept, hf, hc] at h
        cases h
        cases i with
        | zero => simpa using hf
        | succ i0 =>
          simp only [List.getD_cons_succ]
          exact ih ys0 hc i0 (Nat.lt_of_succ_lt_succ hi)

theorem findOwner_eq_none_iff (ts : List Tileset) (bare : Nat) :
    findOwner ts bare = none ↔ ∀ t ∈ ts, bare < t.firstGID := by
  induction ts with
  | nil => simp [findOwner]
  | cons t rest ih =>
    cases hr : findOwner rest bare with
    | some p =>
      simp only [findOwner, hr]
      constructor
      · intro h; cases h
      · intro h
        have := (ih.mpr (fun u hu => h u (List.mem_cons_of_mem t hu)))
        rw [hr] at this; cases this
    | none =>
      simp only [findOwner, hr]
      constructor
      · intro h
        by_cases hle : t.firstGID ≤ bare
        · rw [if_pos hle] at h; cases h
        · intro u hu
          rcases List.mem_cons.mp hu with hu | hu
          · rw [hu]; omega
          · exact ih.mp hr u hu
      · intro h
        rw [if_neg (by have := h t (List.mem_cons_self t rest); omega)]

theorem findOwner_spec (bare : Nat) :
    ∀ (ts : List Tileset) (i : Nat) (u : Tileset), findOwner ts bare = some (i, u) →
      i < ts.length ∧ ts.getD i ⟨0⟩ = u ∧ u.firstGID ≤ bare ∧
        ∀ j, j < ts.length → i < j → bare < (ts.getD j ⟨0⟩).firstGID := by
  intro ts
  induction ts with
  | nil => intro i u h; cases h
  | cons t rest ih =>
    intro i u h
    cases hr : findOwner rest bare with
    | some p =>
      rcases p with ⟨i0, u0⟩
      simp only [findOwner, hr] at h
      injection h with h5
      injection h5 with h6 h7
      subst h6
      subst h7
      rcases ih i0 u0 hr with ⟨h1, h2, h3, h4⟩
      refine ⟨by simpa using Nat.succ_lt_succ h1, by simpa using h2, h3, ?_⟩
      intro j hj hij
      cases j with
      | zero => omega
      | succ j0 =>
        simp only [List.getD_cons_succ]
        exact h4 j0 (by simpa using hj) (by omega)
    | none =>
      simp only [findOwner, hr] at h
      by_cases hle : t.firstGID ≤ bare
      · rw [if_pos hle] at h
        injection h with h5
        injection h5 with h6 h7
        subst h6
        subst h7
        refine ⟨Nat.succ_pos _, rfl, hle, ?_⟩
        intro j hj hij
        cases j with
        | zero => omega
        | succ j0 =>
          simp only [List.getD_cons_succ]
          have hj0 : j0 < rest.length := by simpa using hj
          refine (findOwner_eq_none_iff rest bare).mp hr _ ?_
          rw [List.getD_eq_getElem rest _ hj0]
          exact List.getElem_mem hj0
      · rw [if_neg hle] at h
        exact Option.noConfusion h

theorem findOwner_eq_some_of_maximal (bare : Nat) :
    ∀ (ts : List Tileset) (i : Nat), i < ts.length →
      (ts.getD i ⟨0⟩).firstGID ≤ bare →
      (∀ j, j < ts.length → i < j → bare < (ts.getD j ⟨0⟩).firstGID) →
      findOwner ts bare = some (i, ts.getD i ⟨0⟩) := by
  intro ts
  induction ts with
  | nil => intro i hi; cases hi
  | cons t rest ih =>
    intro i hi hle hmax
    cases i with
    | zero =>
      have hrest : findOwner rest bare = none := by
        rw [findOwner_eq_none_iff]
        intro u hu
        rcases List.mem_iff_getElem.mp hu with ⟨j0, hj0, hju⟩
        have := hmax (j0 + 1) (by simpa using hj0) (Nat.succ_pos _)
        simp only [List.getD_cons_succ] at this
        rwa [List.getD_eq_getElem rest _ hj0, hju] at this
      simp only [findOwner, hrest]
      rw [if_pos (by simpa using hle)]
      rfl
    | succ i0 =>
      have hr : findOwner rest bare = some (i0, rest.getD i0 ⟨0⟩) := by
        refine ih i0 (by simpa using hi) (by simpa using hle) ?_
        intro j hj hij
        have := hmax (j + 1) (by simpa using hj) (by omega)
        simpa using this
      simp only [findOwner, hr]
      rfl

theorem getTilesetAux_all_nil :
    ∀ (tiles : List DecodedTile), (∀ t ∈ tiles, t.nil = true) →
      getTilesetAux tiles none = (none, true, false) := by
  intro tiles
  induction tiles with
  | nil => intro _; rfl
  | cons t rest ih =>
    intro h
    have ht : t.nil = true := h t (List.mem_cons_self t rest)
    simp only [getTilesetAux, ht, if_true]
    exact ih (fun u hu => h u (List.mem_cons_of_mem t hu))

theorem getTilesetAux_single (A : Nat) :
    ∀ (tiles : List DecodedTile), (∀ t ∈ tiles, t.nil = false → t.tileset = some A) →
      getTilesetAux tiles (some A) = (some A, false, false) := by
  intro tiles
  induction tiles with
  | nil => intro _; rfl
  | cons t rest ih =>
    intro h
    have hrest := fun u hu => h u (List.mem_cons_of_mem t hu)
    cases ht : t.nil with
    | true => simp only [getTilesetAux, if_pos ht]; exact ih hrest
    | false =>
      have hA := h t (List.mem_cons_self t rest) ht
      have hcond : ¬ (t.nil = true) := by simp [ht]
      simp only [getTilesetAux, if_neg hcond, hA]
      rw [if_pos trivial]
      exact ih hrest

theorem getTilesetAux_none_single (A : Nat) :
    ∀ (tiles : List DecodedTile),
      (∀ t ∈ tiles, t.nil = false → t.tileset = some A) →
      (∃ t ∈ tiles, t.nil = false) →
      getTilesetAux tiles none = (some A, false, false) := by
  intro tiles
  induction tiles with
  | nil => intro _ h; rcases h with ⟨t, ht, _⟩; cases ht
  | cons t rest ih =>
    intro h hex
    have hrest := fun u hu => h u (List.mem_cons_of_mem t hu)
    cases ht : t.nil with
    | true =>
      simp only [getTilesetAux, if_pos ht]
      refine ih hrest ?_
      rcases hex with ⟨u, hu, hun⟩
      rcases List.mem_cons.mp hu with hu | hu
      · rw [hu] at hun; rw [hun] at ht; cases ht
      · exact ⟨u, hu, hun⟩
    | false =>
      have hA := h t (List.mem_cons_self t rest) ht
      have hcond : ¬ (t.nil = true) := by simp [ht]
      simp only [getTilesetAux, if_neg hcond, hA]
      exact getTilesetAux_single A rest hrest

theorem getTilesetAux_noMulti_some (a : Nat) :
    ∀ (tiles : List DecodedTile), (getTilesetAux tiles (some a)).2.2 = false →
      ∀ t ∈ tiles, t.nil = false → t.tileset = some a := by
  intro tiles
  induction tiles with
  | nil => intro _ t ht; cases ht
  | cons t rest ih =>
    intro h u hu hun
    cases ht : t.nil with
    | true =>
      simp only [getTilesetAux, if_pos ht] at h
      rcases List.mem_cons.mp hu with hu | hu
      · rw [hu] at hun; rw [hun] at ht; cases ht
      · exact ih h u hu hun
    | false =>
      have hcond : ¬ (t.nil = true) := by simp [ht]
      by_cases hts : t.tileset = some a
      · simp only [getTilesetAux, if_neg hcond, hts] at h
        rw [if_pos trivial] at h
        rcases List.mem_cons.mp hu with hu | hu
        · rw [hu]; exact hts
        · exact ih h u hu hun
      · simp only [getTilesetAux, if_neg hcond] at h
        rw [if_neg hts] at h
        simp at h

theorem getTilesetAux_noMulti_none :
    ∀ (tiles : List DecodedTile), (getTilesetAux tiles none).2.2 = false →
      ∀ t1 ∈ tiles, ∀ t2 ∈ tiles, t1.nil = false → t2.nil = false →
        ∀ A B, t1.tileset = some A → t2.tileset = some B → A = B := by
  intro tiles
  induction tiles with
  | nil => intro _ t1 ht1; cases ht1
  | cons t rest ih =>
    intro h t1 ht1 t2 ht2 hn1 hn2 A B hA hB
    cases ht : t.nil with
    | true =>
      simp only [getTilesetAux, if_pos ht] at h
      rcases List.mem_cons.mp ht1 with h1 | h1
      · rw [h1] at hn1; rw [hn1] at ht; cases ht
      · rcases List.mem_cons.mp ht2 with h2 | h2
        · rw [h2] at hn2; rw [hn2] at ht; cases ht
        · exact ih h t1 h1 t2 h2 hn1 hn2 A B hA hB
    | false =>
      have hcond : ¬ (t.nil = true) := by simp [ht]
      cases hts : t.tileset with
      | none =>
        simp only [getTilesetAux, if_neg hcond, hts] at h
        rcases List.mem_cons.mp ht1 with h1 | h1
        · rw [h1, hts] at hA; cases hA
        · rcases List.mem_cons.mp ht2 with h2 | h2
          · rw [h2, hts] at hB; cases hB
          · exact ih h t1 h1 t2 h2 hn1 hn2 A B hA hB
      | some a =>
        simp only [getTilesetAux, if_neg hcond, hts] at h
        have hall : ∀ u ∈ rest, u.nil = false → u.tileset = some a :=
          getTilesetAux_noMulti_some a rest h
        have hA2 : some A = some a := by
          rcases List.mem_cons.mp ht1 with h1 | h1
          · rw [← hA, h1, hts]
          · rw [← hA, hall t1 h1 hn1]
        have hB2 : some B = some a := by
          rcases List.mem_cons.mp ht2 with h2 | h2
          · rw [← hB, h2, hts]
          · rw [← hB, hall t2 h2 hn2]
        cases hA2; cases hB2; rfl

theorem getD_map_range {β : Type} (f : Nat → β) (n k : Nat) (hk : k < n) (d : β) :
    ((List.range n).map f).getD k d = f k := by
  simp [List.getD_eq_getElem?_getD, List.getElem?_map, List.getElem?_range hk]

theorem leEncode_length : ∀ (gids : List Nat), (leEncode gids).length = 4 * gids.length := by
  intro gids
  induction gids with
  | nil => rfl
  | cons g gs ih => simp [leEncode] at ih ⊢; omega

theorem leGID_leEncode :
    ∀ (gids : List Nat) (k : Nat), k < gids.length → (∀ g ∈ gids, g < 2 ^ 32) →
      leGID (leEncode gids) (4 * k) = gids.getD k 0 := by
  intro gids
  induction gids with
  | nil => intro k hk; cases hk
  | cons g gs ih =>
    intro k hk hbound
    have hgb : g < 2 ^ 32 := hbound g (List.mem_cons_self g gs)
    cases k with
    | zero =>
      show leGID ([g % 256, g / 2 ^ 8 % 256, g / 2 ^ 16 % 256, g / 2 ^ 24 % 256] ++ leEncode gs) 0
        = (g :: gs).getD 0 0
      simp only [leGID, List.getD_eq_getElem?_getD, List.getElem?_append, List.getD_cons_zero]
      norm_num
      omega
    | succ k0 =>
      have harith : ∀ r : Nat, r < 4 →
          (leEncode (g :: gs)).getD (4 * (k0 + 1) + r) 0 = (leEncode gs).getD (4 * k0 + r) 0 := by
        intro r hr
        show ([g % 256, g / 2 ^ 8 % 256, g / 2 ^ 16 % 256, g / 2 ^ 24 % 256] ++ leEncode gs).getD
          (4 * (k0 + 1) + r) 0 = (leEncode gs).getD (4 * k0 + r) 0
        rw [List.getD_eq_getElem?_getD, List.getElem?_append,
          if_neg (by simp; omega), ← List.getD_eq_getElem?_getD]
        congr 1
        simp
        omega
      have h0 := harith 0 (by omega)
      have h1 := harith 1 (by omega)
      have h2 := harith 2 (by omega)
      have h3 := harith 3 (by omega)
      simp only [leGID] at h0 h1 h2 h3 ⊢
      rw [Nat.add_zero] at h0
      rw [h0, show 4 * (k0 + 1) + 1 = 4 * (k0 + 1) + 1 from rfl, h1, h2, h3,
        List.getD_cons_succ]
      exact ih k0 (by simpa using hk) (fun u hu => hbound u (List.mem_cons_of_mem g hu))

theorem parseUint32_ok_lt (s : List Char) (g : Nat) (h : parseUint32 s = .ok g) :
    g < 2 ^ 32 := by
  unfold parseUint32 at h
  by_cases h1 : s = []
  · rw [if_pos h1] at h; exact Except.noConfusion h
  · rw [if_neg h1] at h
    by_cases h2 : s.all Char.isDigit
    · rw [if_pos h2] at h
      by_cases h3 : s.foldl (fun a c => a * 10 + (c.toNat - 48)) 0 < 2 ^ 32
      · rw [if_pos h3] at h
        injection h with h4
        omega
      · rw [if_neg h3] at h; exact Except.noConfusion h
    · rw [if_neg h2] at h; exact Except.noConfusion h

theorem decodeCSV_ok_lt (d : Data) (gids : List Nat) (h : d.decodeCSV = .ok gids) :
    ∀ g ∈ gids, g < 2 ^ 32 := by
  intro g hg
  rcases collectExcept_ok_mem parseUint32 _ gids h g hg with ⟨s, _, hs⟩
  exact parseUint32_ok_lt s g hs

theorem decodeLayerCSV_ok (l : Layer) (width height : Nat) (gids : List Nat)
    (h : l.decodeLayerCSV width height = .ok gids) :
    l.data.decodeCSV = .ok gids ∧ gids.length = width * height := by
  unfold Layer.decodeLayerCSV at h
  cases hc : l.data.decodeCSV with
  | error e => simp only [hc] at h; exact Except.noConfusion h
  | ok gs =>
    simp only [hc] at h
    by_cases hl : gs.length ≠ width * height
    · rw [if_pos hl] at h; exact Except.noConfusion h
    · rw [if_neg hl] at h
      injection h with h2
      subst h2
      push_neg at hl
      exact ⟨rfl, hl⟩

theorem applyTilesetMeta_decodedTiles (l : Layer) :
    (applyTilesetMeta l).decodedTiles = l.decodedTiles := by
  unfold applyTilesetMeta
  by_cases h : (getTileset l).2.2 = true
  · rw [if_pos h]
  · rw [if_neg h]

theorem decodeLayers_ok_fields (m md : Map) (h : m.decodeLayers = .ok md) :
    ∀ l0 ∈ md.layers, ∃ lin ∈ m.layers,
      l0.tileset = lin.tileset ∧ l0.empty = lin.empty := by
  intro l0 hl0
  unfold Map.decodeLayers at h
  cases hc : collectExcept (fun l =>
      match l.decode m.width m.height with
      | .error e => .error e
      | .ok gids =>
        match collectExcept m.decodeGID gids with
        | .error e => .error e
        | .ok tiles => .ok { l with decodedTiles := tiles }) m.layers with
  | error e => simp only [hc] at h; exact Except.noConfusion h
  | ok layers =>
    simp only [hc] at h
    injection h with h2
    subst h2
    rcases collectExcept_ok_mem _ m.layers layers hc l0 hl0 with ⟨lin, hlin, hfl⟩
    refine ⟨lin, hlin, ?_⟩
    cases hd : lin.decode m.width m.height with
    | error e => simp only [hd] at hfl; exact Except.noConfusion hfl
    | ok gids =>
      simp only [hd] at hfl
      cases hg : collectExcept m.decodeGID gids with
      | error e => simp only [hg] at hfl; exact Except.noConfusion hfl
      | ok tiles =>
        simp only [hg] at hfl
        injection hfl with h3
        rw [← h3]
        exact ⟨rfl, rfl⟩

theorem decodePoint_error_of_bad (tok : List Char)
    (hbad : (splitOnChar ',' tok).length ≠ 2 ∨
      ∃ c ∈ splitOnChar ',' tok, ∃ e, atoi c = .error e) :
    ∃ e, decodePoint tok = .error e := by
  cases h1 : splitOnChar ',' tok with
  | nil => exact ⟨.invalidPointsField, by simp [decodePoint, h1]⟩
  | cons c1 r1 =>
    cases h2 : r1 with
    | nil => exact ⟨.invalidPointsField, by simp [decodePoint, h1, h2]⟩
    | cons c2 r2 =>
      cases h3 : r2 with
      | cons c3 r3 => exact ⟨.invalidPointsField, by simp [decodePoint, h1, h2, h3]⟩
      | nil =>
        subst h2
        subst h3
        rcases hbad with hlen | ⟨c, hc, e, he⟩
        · rw [h1] at hlen
          simp at hlen
        · rw [h1] at hc
          cases ha1 : atoi c1 with
          | error e1 => exact ⟨e1, by simp [decodePoint, h1, ha1]⟩
          | ok v1 =>
            cases ha2 : atoi c2 with
            | error e2 => exact ⟨e2, by simp [decodePoint, h1, ha1, ha2]⟩
            | ok v2 =>
              rcases List.mem_cons.mp hc with hc | hc
              · rw [← hc] at ha1; rw [ha1] at he; exact Except.noConfusion he
              · rcases List.mem_cons.mp hc with hc | hc
                · rw [← hc] at ha2; rw [ha2] at he; exact Except.noConfusion he
                · cases hc

/-! ## The specification claims -/

/-- **C1.** For every layer and every one of the three encodings
(structured/XML tile records, CSV, base64 with optional compression), a
successful payload decode yields exactly width*height GIDs in row-major
order, and a count mismatch (tile-record count for structured; parsed
token count for CSV; decompressed byte count against width*height*4 for
base64) makes the decode fail with the data-length error instead of
returning a sequence. -/
theorem decode_length_contract (l : Layer) (width height : Nat) :
    (∀ gids, l.decodeLayerXML width height = .ok gids →
      gids.length = width * height ∧ gids = l.data.dataTiles) ∧
    (l.data.dataTiles.length ≠ width * height →
      l.decodeLayerXML width height = .error .invalidDecodedDataLen) ∧
    (∀ gids, l.decodeLayerCSV width height = .ok gids → gids.length = width * height) ∧
    (∀ gids, l.data.decodeCSV = .ok gids → gids.length ≠ width * height →
      l.decodeLayerCSV width height = .error .invalidDecodedDataLen) ∧
    (∀ gids, l.decodeLayerBase64 width height = .ok gids → gids.length = width * height) ∧
    (∀ bs, l.data.decodeBase64 = .ok bs → bs.length ≠ width * height * 4 →
      l.decodeLayerBase64 width height = .error .invalidDecodedDataLen) := by
  refine ⟨?_, ?_, ?_, ?_, ?_, ?_⟩
  · intro gids h
    unfold Layer.decodeLayerXML at h
    by_cases hl : l.data.dataTiles.length ≠ width * height
    · rw [if_pos hl] at h; exact Except.noConfusion h
    · rw [if_neg hl] at h
      injection h with h2
      push_neg at hl
      exact ⟨h2 ▸ hl, h2.symm⟩
  · intro hl
    unfold Layer.decodeLayerXML
    rw [if_pos hl]
  · intro gids h
    exact (decodeLayerCSV_ok l width height gids h).2
  · intro gids hc hl
    unfold Layer.decodeLayerCSV
    simp only [hc]
    rw [if_pos hl]
  · intro gids h
    unfold Layer.decodeLayerBase64 at h
    cases hb : l.data.decodeBase64 with
    | error e => simp only [hb] at h; exact Except.noConfusion h
    | ok bs =>
      simp only [hb] at h
      by_cases hl : bs.length ≠ width * height * 4
      · rw [if_pos hl] at h; exact Except.noConfusion h
      · rw [if_neg hl] at h
        injection h with h2
        rw [← h2]
        simp
  · intro bs hb hl
    unfold Layer.decodeLayerBase64
    simp only [hb]
    rw [if_pos hl]

/-- **C1 witness:** a 2x2 XML layer with only three tile records is
rejected with the data-length error. -/
theorem decode_length_contract_witness :
    fixtureXmlLayer.data.dataTiles.length ≠ 2 * 2 ∧
      fixtureXmlLayer.decodeLayerXML 2 2 = .error .invalidDecodedDataLen :=
  ⟨by decide, (decode_length_contract fixtureXmlLayer 2 2).2.1 (by decide)⟩

/-- **C2.** For every non-zero GID, resolution first clears the top 3
flag bits to obtain the bare GID, then scans the map's tileset list from
the last element downward: the first tileset (equivalently, the
largest-index one) whose FirstGID is at most the bare GID owns the tile,
and the resolved tile's local ID is the bare GID minus that tileset's
FirstGID; if no tileset qualifies (bare GID smaller than every FirstGID,
or empty tileset list) resolution fails with InvalidGIDError rather than
returning a nil tile. -/
theorem decodeGID_owner_resolution (m : Map) (gid : Nat) (hne : gid ≠ 0) :
    (∀ i, i < m.tilesets.length →
      (m.tilesets.getD i ⟨0⟩).firstGID ≤ gid &&& 0x1FFFFFFF →
      (∀ j, j < m.tilesets.length → i < j →
        gid &&& 0x1FFFFFFF < (m.tilesets.getD j ⟨0⟩).firstGID) →
      m.decodeGID gid = .ok
        { id := (gid &&& 0x1FFFFFFF) - (m.tilesets.getD i ⟨0⟩).firstGID
          tileset := some i
          horizontalFlip := gid &&& gidHorizontalFlip != 0
          verticalFlip := gid &&& gidVerticalFlip != 0
          diagonalFlip := gid &&& gidDiagonalFlip != 0
          nil := false }) ∧
    ((∀ t ∈ m.tilesets, gid &&& 0x1FFFFFFF < t.firstGID) →
      m.decodeGID gid = .error .invalidGID) := by
  constructor
  · intro i hi hle hmax
    have h := findOwner_eq_some_of_maximal (gid &&& 0x1FFFFFFF) m.tilesets i hi hle hmax
    simp only [Map.decodeGID, if_neg hne, h]
  · intro hall
    have h := (findOwner_eq_none_iff m.tilesets (gid &&& 0x1FFFFFFF)).mpr hall
    simp only [Map.decodeGID, if_neg hne, h]

/-- **C2 witness:** in a map with tilesets of FirstGIDs 1 and 5, GID 6 is
owned by the second tileset (index 1) with local ID 1. -/
theorem decodeGID_owner_resolution_witness :
    (6 : Nat) ≠ 0 ∧
      fixtureMapTwoTilesets.decodeGID 6 = .ok ⟨1, some 1, false, false, false, false⟩ := by
  refine ⟨by decide, ?_⟩
  have h := (decodeGID_owner_resolution fixtureMapTwoTilesets 6 (by decide)).1
    1 (by decide) (by decide) (by decide)
  simpa using h

/-- **C3.** The GID value 0 always resolves to the single shared nil-tile
sentinel (before any flag masking), and IsNil is true for that sentinel
and false for every tile resolved from a non-zero GID; this holds for
every tileset list. -/
theorem decodeGID_nil_sentinel (m : Map) :
    m.decodeGID 0 = .ok NilTile ∧ NilTile.isNil = true ∧
      ∀ gid, gid ≠ 0 → ∀ dt, m.decodeGID gid = .ok dt → dt.isNil = false := by
  refine ⟨by simp [Map.decodeGID], rfl, ?_⟩
  intro gid hne dt h
  simp only [Map.decodeGID, if_neg hne] at h
  cases hf : findOwner m.tilesets (gid &&& 0x1FFFFFFF) with
  | some p =>
    rcases p with ⟨i, u⟩
    simp only [hf] at h
    injection h with h2
    rw [← h2]
    rfl
  | none =>
    simp only [hf] at h
    exact Except.noConfusion h

/-- **C3 witness:** with one tileset, GID 0 resolves to the sentinel
(IsNil true) and GID 1 resolves to a tile with IsNil false. -/
theorem decodeGID_nil_sentinel_witness :
    fixtureMapOneTileset.decodeGID 0 = .ok NilTile ∧ NilTile.isNil = true ∧
      ∀ dt, fixtureMapOneTileset.decodeGID 1 = .ok dt → dt.isNil = false := by
  obtain ⟨h1, h2, h3⟩ := decodeGID_nil_sentinel fixtureMapOneTileset
  exact ⟨h1, h2, h3 1 (by decide)⟩

/-- **C10.** For every GID that is non-zero but whose bare value is 0
(only some of the three top flag bits are set), resolution does not
return the nil sentinel: the nil short-circuit applies only to the exact
value 0, so when every tileset's FirstGID is greater than 0 such a GID
fails with InvalidGIDError. -/
theorem decodeGID_flag_only_not_nil (m : Map) (gid : Nat) (hne : gid ≠ 0)
    (hbare : gid &&& 0x1FFFFFFF = 0) :
    (∀ dt, m.decodeGID gid = .ok dt → dt.nil = false ∧ dt ≠ NilTile) ∧
    ((∀ t ∈ m.tilesets, 0 < t.firstGID) → m.decodeGID gid = .error .invalidGID) := by
  constructor
  · intro dt h
    simp only [Map.decodeGID, if_neg hne] at h
    cases hf : findOwner m.tilesets (gid &&& 0x1FFFFFFF) with
    | some p =>
      rcases p with ⟨i, u⟩
      simp only [hf] at h
      injection h with h2
      constructor
      · rw [← h2]
      · intro heq
        rw [heq] at h2
        have : NilTile.nil = false := by rw [← h2]
        exact Bool.noConfusion this
    | none =>
      simp only [hf] at h
      exact Except.noConfusion h
  · intro hpos
    have h := (findOwner_eq_none_iff m.tilesets (gid &&& 0x1FFFFFFF)).mpr
      (fun t ht => by rw [hbare]; exact hpos t ht)
    simp only [Map.decodeGID, if_neg hne, h]

/-- **C10 witness:** the GID with only the horizontal-flip bit set
(0x80000000) has bare value 0 and fails with InvalidGIDError against a
tileset list whose FirstGIDs are all positive. -/
theorem decodeGID_flag_only_not_nil_witness :
    (0x80000000 : Nat) ≠ 0 ∧ (0x80000000 : Nat) &&& 0x1FFFFFFF = 0 ∧
      fixtureMapOneTileset.decodeGID 0x80000000 = .error .invalidGID :=
  ⟨by decide, by decide,
    (decodeGID_flag_only_not_nil fixtureMapOneTileset 0x80000000
      (by decide) (by decide)).2 (by decide)⟩

/-- **C4.** For a base64-encoded layer whose (optionally
zlib/gzip-decompressed) byte sequence has length exactly
width*height*4, the decoded GID at row-major index y*width+x equals the
unsigned 32-bit integer formed little-endian from the four bytes
starting at offset 4*(y*width+x), for every x < width and y < height. -/
theorem decodeLayerBase64_little_endian (l : Layer) (width height x y : Nat)
    (bs : List Nat) (hb : l.data.decodeBase64 = .ok bs)
    (hlen : bs.length = width * height * 4) (hx : x < width) (hy : y < height) :
    ∃ gids, l.decodeLayerBase64 width height = .ok gids ∧
      gids.getD (y * width + x) 0 =
        bs.getD (4 * (y * width + x)) 0 +
        bs.getD (4 * (y * width + x) + 1) 0 * 2 ^ 8 +
        bs.getD (4 * (y * width + x) + 2) 0 * 2 ^ 16 +
        bs.getD (4 * (y * width + x) + 3) 0 * 2 ^ 24 := by
  have hcell : y * width + x < width * height := by
    have h1 : y * width + x < (y + 1) * width := by
      rw [Nat.succ_mul]; omega
    have h2 : (y + 1) * width ≤ height * width := Nat.mul_le_mul_right _ hy
    calc y * width + x < (y + 1) * width := h1
      _ ≤ height * width := h2
      _ = width * height := Nat.mul_comm _ _
  refine ⟨(List.range (width * height)).map fun k => leGID bs (4 * k), ?_, ?_⟩
  · unfold Layer.decodeLayerBase64
    simp only [hb]
    rw [if_neg (by omega)]
  · rw [getD_map_range _ _ _ hcell]
    rfl

/-- **C4 witness:** for a 2x1 layer with bytes 1,0,0,0,2,0,0,0 the GID at
index (x, y) = (1, 0) is 2, reassembled from bytes 4..7. -/
theorem decodeLayerBase64_little_endian_witness :
    fixtureBase64Layer.data.decodeBase64 = .ok [1, 0, 0, 0, 2, 0, 0, 0] ∧
      ∃ gids, fixtureBase64Layer.decodeLayerBase64 2 1 = .ok gids ∧
        gids.getD (0 * 2 + 1) 0 =
          [1, 0, 0, 0, 2, 0, 0, 0].getD (4 * (0 * 2 + 1)) 0 +
          [1, 0, 0, 0, 2, 0, 0, 0].getD (4 * (0 * 2 + 1) + 1) 0 * 2 ^ 8 +
          [1, 0, 0, 0, 2, 0, 0, 0].getD (4 * (0 * 2 + 1) + 2) 0 * 2 ^ 16 +
          [1, 0, 0, 0, 2, 0, 0, 0].getD (4 * (0 * 2 + 1) + 3) 0 * 2 ^ 24 :=
  ⟨by decide,
    decodeLayerBase64_little_endian fixtureBase64Layer 2 1 1 0
      [1, 0, 0, 0, 2, 0, 0, 0] (by decide) (by decide) (by decide) (by decide)⟩

/-- **C5.** For every document whose map carries the infinite flag, load
fails with the infinite-map-unsupported error and returns no Map; the
outcome does not depend on the map's tilesets or layers, so no layer
payload decoding or GID resolution takes part in it. -/
theorem read_infinite_rejected (m : Map) (hinf : m.infinite = 1) :
    read m = .error .infiniteMap ∧
      ∀ (tilesets : List Tileset) (layers : List Layer),
        read { m with tilesets := tilesets, layers := layers } = .error .infiniteMap := by
  constructor
  · simp [read, hinf]
  · intro ts ls
    simp [read, hinf]

/-- **C5 witness:** an infinite map with a malformed layer payload is
still rejected with the infinite-map error. -/
theorem read_infinite_rejected_witness :
    fixtureInfiniteMap.infinite = 1 ∧ read fixtureInfiniteMap = .error .infiniteMap :=
  ⟨by decide, (read_infinite_rejected fixtureInfiniteMap (by decide)).1⟩

/-- **C6.** For every flat GID grid of size width*height, decoding it
from a CSV payload and decoding it from a base64 payload with no
compression that encode the same logical tile IDs (the CSV payload
decodes to the grid, the base64 bytes are its little-endian encoding),
then resolving each GID against the same tileset list, produces
element-wise equal DecodedTile sequences. -/
theorem csv_base64_resolution_agree (m : Map) (lc lb : Layer) (width height : Nat)
    (gids : List Nat)
    (hcsv : lc.decodeLayerCSV width height = .ok gids)
    (hcomp : lb.data.compression = "")
    (hbytes : lb.data.inflated = .ok (leEncode gids)) :
    ∃ gidsB, lb.decodeLayerBase64 width height = .ok gidsB ∧
      gidsB.map m.decodeGID = gids.map m.decodeGID := by
  obtain ⟨hdec, hlen⟩ := decodeLayerCSV_ok lc width height gids hcsv
  have hbound : ∀ g ∈ gids, g < 2 ^ 32 := decodeCSV_ok_lt lc.data gids hdec
  have hb64 : lb.data.decodeBase64 = .ok (leEncode gids) := by
    unfold Data.decodeBase64
    rw [hcomp]
    simp [hbytes]
  have hblen : (leEncode gids).length = width * height * 4 := by
    rw [leEncode_length, hlen]
    omega
  refine ⟨gids, ?_, rfl⟩
  unfold Layer.decodeLayerBase64
  simp only [hb64]
  rw [if_neg (by omega)]
  congr 1
  refine List.ext_getElem ?_ ?_
  · simp [hlen]
  · intro k hk1 hk2
    have hkr : k < width * height := by simpa using hk1
    have hkg : k < gids.length := by omega
    have h1 : ((List.range (width * height)).map fun j => leGID (leEncode gids) (4 * j)).getD k 0
        = leGID (leEncode gids) (4 * k) := getD_map_range _ _ _ hkr 0
    have h2 := leGID_leEncode gids k hkg hbound
    rw [List.getD_eq_getElem _ _ hk1] at h1
    rw [List.getD_eq_getElem _ _ hk2] at h2
    rw [h1, h2]

/-- **C6 witness:** the CSV text `1,2,0,3` and the byte sequence encoding
the same four GIDs decode to the same sequence, and resolving both
against a one-tileset map gives element-wise equal tiles. -/
theorem csv_base64_resolution_agree_witness :
    fixtureCsvLayer.decodeLayerCSV 2 2 = .ok [1, 2, 0, 3] ∧
      ∃ gidsB, fixtureCsvLayerB64.decodeLayerBase64 2 2 = .ok gidsB ∧
        gidsB.map fixtureMapOneTileset.decodeGID =
          [1, 2, 0, 3].map fixtureMapOneTileset.decodeGID :=
  ⟨by decide,
    csv_base64_resolution_agree fixtureMapOneTileset fixtureCsvLayer fixtureCsvLayerB64
      2 2 [1, 2, 0, 3] (by decide) (by decide) (by decide)⟩

/-- **C7.** After a successful load (of a document whose parsed layers
carry the zero-value metadata, as the XML decode produces), each layer
whose every non-nil decoded tile belongs to one tileset A has its
single-Tileset field set to A and Empty=false; a layer whose non-nil
tiles belong to two different tilesets has the single-Tileset field
unset; and a layer whose decoded tiles are all the nil sentinel has
Empty=true and the single-Tileset field unset. -/
theorem read_layer_tileset_metadata (m m2 : Map)
    (hzero : ∀ l ∈ m.layers, l.tileset = none ∧ l.empty = false)
    (hok : read m = .ok m2) :
    ∀ l ∈ m2.layers,
      (∀ A, (∀ t ∈ l.decodedTiles, t.nil = false → t.tileset = some A) →
        (∃ t ∈ l.decodedTiles, t.nil = false) →
        l.tileset = some A ∧ l.empty = false) ∧
      (∀ A B, A ≠ B →
        (∃ t ∈ l.decodedTiles, t.nil = false ∧ t.tileset = some A) →
        (∃ t ∈ l.decodedTiles, t.nil = false ∧ t.tileset = some B) →
        l.tileset = none) ∧
      ((∀ t ∈ l.decodedTiles, t.nil = true) → l.empty = true ∧ l.tileset = none) := by
  intro l hl
  unfold read at hok
  by_cases hinf : m.infinite = 1
  · rw [if_pos hinf] at hok
    exact Except.noConfusion hok
  · rw [if_neg hinf] at hok
    cases hdl : m.decodeLayers with
    | error e => simp only [hdl] at hok; exact Except.noConfusion hok
    | ok md =>
      simp only [hdl] at hok
      injection hok with h2
      subst h2
      rcases List.mem_map.mp hl with ⟨l0, hl0, rfl⟩
      obtain ⟨lin, hlin, hts0, hemp0⟩ := decodeLayers_ok_fields m md hdl l0 hl0
      obtain ⟨hz1, hz2⟩ := hzero lin hlin
      have hts : l0.tileset = none := hts0.trans hz1
      have hemp : l0.empty = false := hemp0.trans hz2
      refine ⟨?_, ?_, ?_⟩
      · intro A hall hex
        rw [applyTilesetMeta_decodedTiles] at hall hex
        have hg : getTilesetAux l0.decodedTiles none = (some A, false, false) :=
          getTilesetAux_none_single A l0.decodedTiles hall hex
        constructor <;> simp [applyTilesetMeta, getTileset, hg]
      · intro A B hne hexA hexB
        rw [applyTilesetMeta_decodedTiles] at hexA hexB
        cases hb : (getTilesetAux l0.decodedTiles none).2.2 with
        | false =>
          exfalso
          rcases hexA with ⟨tA, htA, hnA, hsA⟩
          rcases hexB with ⟨tB, htB, hnB, hsB⟩
          exact hne (getTilesetAux_noMulti_none l0.decodedTiles hb
            tA htA tB htB hnA hnB A B hsA hsB)
        | true =>
          simp only [applyTilesetMeta, getTileset, hb, if_true]
          exact hts
      · intro hall
        rw [applyTilesetMeta_decodedTiles] at hall
        have hg : getTilesetAux l0.decodedTiles none = (none, true, false) :=
          getTilesetAux_all_nil l0.decodedTiles hall
        constructor <;> simp [applyTilesetMeta, getTileset, hg]

/-- **C7 witness:** reading the 2x1 one-tileset CSV map succeeds, and its
layer — whose two decoded tiles both belong to tileset 0 — has the
single-Tileset field set to 0 and Empty=false. -/
theorem read_layer_tileset_metadata_witness :
    read fixtureReadMap = .ok fixtureReadMapOut ∧
      fixtureReadLayerOut.tileset = some 0 ∧ fixtureReadLayerOut.empty = false :=
  ⟨by decide,
    (read_layer_tileset_metadata fixtureReadMap fixtureReadMapOut (by decide) (by decide)
        fixtureReadLayerOut (by simp [fixtureReadMapOut])).1
      0 (by decide) (by decide)⟩

/-- **C8 counterexample:** the input `0,0 0,x` contains a non-conforming
token (`0,x` has the non-numeric component `x`), yet `decodePoints` fails
with the propagated `Atoi` error for `x`, not with the points-format
error `InvalidPointsFieldError` — so a non-numeric component does not
fail with PointsFormatError as the claim states. -/
theorem decodePoints_nonNumeric_counterexample :
    decodePoints ("0,0 0,x".toList) = .error (.atoiError "x") ∧
      TmxError.atoiError "x" ≠ TmxError.invalidPointsField := by
  exact ⟨by decide, by decide⟩

/-- **C8 (amended).** decodePoints splits its input on single spaces into
tokens and each token on a single comma into exactly two integer fields,
returning the points in input order (so `0,0 10,0 10,10` yields
(0,0),(10,0),(10,10)); every input containing a non-conforming token —
wrong field count or a non-numeric component — fails with some error and
returns no point sequence: a wrong field count fails with
PointsFormatError (as in `0,0 bad`), while a non-numeric component
propagates the integer-parse error of that component. -/
theorem decodePoints_amended :
    decodePoints ("0,0 10,0 10,10".toList) = .ok [⟨0, 0⟩, ⟨10, 0⟩, ⟨10, 10⟩] ∧
    decodePoints ("0,0 bad".toList) = .error .invalidPointsField ∧
    (∀ s tok, tok ∈ splitOnChar ' ' s →
      ((splitOnChar ',' tok).length ≠ 2 ∨ ∃ c ∈ splitOnChar ',' tok, ∃ e, atoi c = .error e) →
      ∃ e, decodePoints s = .error e) ∧
    (∀ s pts, decodePoints s = .ok pts →
      pts.length = (splitOnChar ' ' s).length ∧
      ∀ i, i < (splitOnChar ' ' s).length →
        decodePoint ((splitOnChar ' ' s).getD i []) = .ok (pts.getD i ⟨0, 0⟩)) := by
  refine ⟨by decide, by decide, ?_, ?_⟩
  · intro s tok htok hbad
    exact collectExcept_error_of_mem decodePoint (splitOnChar ' ' s) tok htok
      (decodePoint_error_of_bad tok hbad)
  · intro s pts h
    exact ⟨collectExcept_ok_length decodePoint (splitOnChar ' ' s) pts h,
      fun i hi => collectExcept_ok_getD decodePoint [] ⟨0, 0⟩ (splitOnChar ' ' s) pts h i hi⟩

/-- **C8 witness:** the token `bad` of `0,0 bad` splits into one comma
field, so the whole decode fails with some error. -/
theorem decodePoints_amended_witness :
    ("bad".toList ∈ splitOnChar ' ' ("0,0 bad".toList)) ∧
      (∃ e, decodePoints ("0,0 bad".toList) = .error e) :=
  ⟨by decide,
    decodePoints_amended.2.2.1 ("0,0 bad".toList) ("bad".toList)
      (by decide) (Or.inl (by decide))⟩

/-- **C9.** For every Object, each shape-geometry query (GetEllipse,
GetPoint, GetRect) returns an error when the object's structurally
determined shape kind differs from the kind the query is for, and
returns its geometry without error when the kinds match; a wrong-kind
query never returns zeroed geometry presented as valid (error-free)
data: its error component is always `ErrInvalidObjectType`. -/
theorem object_shape_query_errors (o : Object) :
    ((o.getEllipse).2 = none ↔ o.getType = .ellipseObj) ∧
    ((o.getPoint).2 = none ↔ o.getType = .pointObj) ∧
    ((o.getRect).2 = none ↔ o.getType = .rectangleObj) ∧
    (o.getType ≠ .ellipseObj → (o.getEllipse).2 = some .invalidObjectType) ∧
    (o.getType ≠ .pointObj → (o.getPoint).2 = some .invalidObjectType) ∧
    (o.getType ≠ .rectangleObj → (o.getRect).2 = some .invalidObjectType) := by
  cases hty : o.getType <;>
    simp [Object.getEllipse, Object.getPoint, Object.getRect, hty]

/-- **C9 witness:** an ellipse object answers GetEllipse without error
and GetPoint with `ErrInvalidObjectType`. -/
theorem object_shape_query_errors_witness :
    fixtureEllipseObject.getType ≠ .pointObj ∧
      (fixtureEllipseObject.getPoint).2 = some .invalidObjectType ∧
      (fixtureEllipseObject.getEllipse).2 = none :=
  ⟨by decide,
    (object_shape_query_errors fixtureEllipseObject).2.2.2.2.1 (by decide),
    ((object_shape_query_errors fixtureEllipseObject).1).mpr (by decide)⟩

end Tilepix
